import Mathlib

/-
  Verification development for the boundary-discretisation core of the slsm
  level-set library (src/src/Boundary.h).

  The repository ships the class declarations and their documentation in
  src/src/Boundary.h; the member-function bodies (Boundary.cpp) are not part
  of the available sources, so every operation below is modelled from the
  specification's description of the algorithm, keeping the names and the
  data layout of the header.  Machine reals are modelled by exact rationals;
  the Euclidean square root has no exact rational counterpart, so the
  point-to-point distance is an explicit parameter `euclid` of the functions
  that need it (every property proved here holds for an arbitrary distance
  function, in particular for the Euclidean one).
-/

set_option autoImplicit false

namespace slsm

/-- A 2D coordinate, as the `Coord` struct used by `BoundaryPoint::coord`
(x and y components). -/
structure Coord where
  x : ℚ
  y : ℚ
deriving DecidableEq

instance : Inhabited Coord := ⟨⟨0, 0⟩⟩

/-- Modelled from the spec: classification of a grid node against the field
(inside: value < 0, outside: value > 0, on-contour: value = 0); `unassigned`
is the state before the classifier runs. -/
inductive NodeStatus where
  | unassigned
  | inside
  | outside
  | onContour
deriving DecidableEq

instance : Inhabited NodeStatus := ⟨.unassigned⟩

/-- Modelled from the spec: classification of a grid element (cut by the
contour or not); `unassigned` is the state before the classifier runs. -/
inductive ElementStatus where
  | unassigned
  | cut
  | uncut
deriving DecidableEq

instance : Inhabited ElementStatus := ⟨.unassigned⟩

/-- A node of the fixed grid, as supplied by the grid provider: coordinate,
domain-boundary flag, fixed flag, and the working classification status that
the mesh-status classifier annotates. -/
structure MeshNode where
  coord : Coord
  isDomain : Bool
  isFixed : Bool
  status : NodeStatus
deriving DecidableEq

instance : Inhabited MeshNode := ⟨⟨default, false, false, default⟩⟩

/-- An element of the fixed grid: its (four, counter-clockwise) node indices
and the working classification status annotated by the classifier. -/
structure MeshElement where
  nodes : List Nat
  status : ElementStatus
deriving DecidableEq

instance : Inhabited MeshElement := ⟨⟨[], default⟩⟩

/-- The fixed-grid mesh supplied by the grid provider: nodes and elements. -/
structure Mesh where
  nodes : List MeshNode
  elements : List MeshElement
deriving DecidableEq

/-- A container for storing information associated with a boundary point
(class `BoundaryPoint` of src/src/Boundary.h). -/
structure BoundaryPoint where
  coord : Coord
  normal : Coord
  length : ℚ
  velocity : ℚ
  negativeLimit : ℚ
  positiveLimit : ℚ
  isDomain : Bool
  isFixed : Bool
  nSegments : Nat
  segments : List Nat
  nNeighbours : Nat
  neighbours : List Nat
  sensitivities : List ℚ
deriving DecidableEq

instance : Inhabited BoundaryPoint :=
  ⟨⟨default, default, 0, 0, 0, 0, false, false, 0, [], 0, [], []⟩⟩

/-- A container for storing information associated with a boundary segment
(class `BoundarySegment` of src/src/Boundary.h). -/
structure BoundarySegment where
  start : Nat
  «end» : Nat
  element : Nat
  length : ℚ
  weight : ℚ
deriving DecidableEq

instance : Inhabited BoundarySegment := ⟨⟨0, 0, 0, 0, 0⟩⟩

/-- The aggregate discretisation result (class `Boundary` of
src/src/Boundary.h): points, segments and the cached summary statistics. -/
structure Boundary where
  points : List BoundaryPoint
  segments : List BoundarySegment
  nPoints : Nat
  nSegments : Nat
  length : ℚ
deriving DecidableEq

instance : Inhabited Boundary := ⟨⟨[], [], 0, 0, 0⟩⟩

/-- Modelled from the spec: the identity of the grid location carrying a
boundary point — either a grid node (zero field value) or a grid edge
(sign change), identified by its unordered pair of node indices.  This is
the element-edge identity keying the deduplication record. -/
inductive PointLoc where
  | onNode (n : Nat)
  | onEdge (a b : Nat)
deriving DecidableEq

instance : Inhabited PointLoc := ⟨.onNode 0⟩

/-- Modelled from the spec (§7): the error taxonomy of discretisation —
a field/node count mismatch (fail fast) or a non-manifold contour
(a point with more than two incident segments). -/
inductive DiscretiseError where
  | fieldSizeMismatch
  | nonManifold
deriving DecidableEq

/-- Modelled from the spec: the working state of one discretisation sweep —
the deduplication record mapping each point location to the index of the
point created there, the points and segments created so far, and the running
total length. -/
structure DiscState where
  entries : List (PointLoc × Nat)
  points : List BoundaryPoint
  segments : List BoundarySegment
  totalLength : ℚ
deriving DecidableEq

/-- The empty sweep state. -/
def initState : DiscState := ⟨[], [], [], 0⟩

/-- Modelled from the spec (§4.1): node classification from the sign of the
signed-distance value. -/
def nodeStatusOf (v : ℚ) : NodeStatus :=
  if v < 0 then .inside else if 0 < v then .outside else .onContour

/-- Modelled from the spec (§4.1): an element is cut when its nodes have
mixed sign or a zero value. -/
def elementCut (φ : List ℚ) (ns : List Nat) : Bool :=
  let vs := ns.map fun n => φ.getD n 0
  vs.any (fun v => decide (v = 0)) ||
    (vs.any (fun v => decide (v < 0)) && vs.any (fun v => decide (0 < v)))

/-- Modelled from the spec (§4.1): annotate the node records with their
classification status, node i against the i-th field value. -/
def annotateNodes (φ : List ℚ) : Nat → List MeshNode → List MeshNode
  | _, [] => []
  | i, n :: rest =>
      { n with status := nodeStatusOf (φ.getD i 0) } :: annotateNodes φ (i + 1) rest

/-- Modelled from the spec: `Boundary::computeMeshStatus` (declared at
src/src/Boundary.h:146; body not in the available sources).  Determines the
status of the elements and nodes of the level-set mesh and annotates the
grid provider's working state with it (spec §4.1). -/
def computeMeshStatus (mesh : Mesh) (φ : List ℚ) : Mesh :=
  { nodes := annotateNodes φ 0 mesh.nodes,
    elements := mesh.elements.map fun e =>
      { e with status := if elementCut φ e.nodes then .cut else .uncut } }

/-- The coordinate of grid node n. -/
def nodeCoord (mesh : Mesh) (n : Nat) : Coord :=
  (mesh.nodes.getD n default).coord

/-- Modelled from the spec (§4.2): linear interpolation of the zero crossing
along the edge from node a to node b,
position = node_a + (0 − value_a) / (value_b − value_a) × (node_b − node_a). -/
def interpolate (ca cb : Coord) (va vb : ℚ) : Coord :=
  ⟨ca.x + (0 - va) / (vb - va) * (cb.x - ca.x),
   ca.y + (0 - va) / (vb - va) * (cb.y - ca.y)⟩

/-- Modelled from the spec (§4.2): the boundary point produced by one element
edge — at a node whose value is exactly zero (no interpolation), or at the
interpolated crossing when the endpoint values have opposite sign; `none`
when the contour does not cross the edge. -/
def edgeCrossing (mesh : Mesh) (φ : List ℚ) (a b : Nat) : Option (PointLoc × Coord) :=
  let va := φ.getD a 0
  let vb := φ.getD b 0
  if va = 0 then some (.onNode a, nodeCoord mesh a)
  else if vb = 0 then some (.onNode b, nodeCoord mesh b)
  else if (va < 0 ∧ 0 < vb) ∨ (vb < 0 ∧ 0 < va) then
    some (.onEdge (min a b) (max a b), interpolate (nodeCoord mesh a) (nodeCoord mesh b) va vb)
  else none

/-- The four edges of an element, as consecutive pairs of its node list
(wrapping around). -/
def elementEdges (ns : List Nat) : List (Nat × Nat) :=
  ns.zip (ns.rotate 1)

/-- Keep the first crossing produced at each distinct location (two edges of
one element meeting at a zero-valued node yield the same point). -/
def dedupByLoc (xs : List (PointLoc × Coord)) : List (PointLoc × Coord) :=
  xs.foldl (fun acc p => if (acc.map Prod.fst).contains p.1 then acc else acc ++ [p]) []

/-- Modelled from the spec: `Boundary::isAdded` (declared at
src/src/Boundary.h:167; body not in the available sources).  Check whether a
boundary point has already been added at this grid-edge/node location:
the index of the boundary point if previously added, minus one if not. -/
def isAdded : List (PointLoc × Nat) → PointLoc → Int
  | [], _ => -1
  | (l, i) :: rest, loc => if l = loc then Int.ofNat i else isAdded rest loc

/-- Whether a point at this location lies on the outer domain boundary: a
node location inherits the node's flag, an edge location lies on the domain
boundary when both its endpoint nodes do. -/
def locIsDomain (mesh : Mesh) : PointLoc → Bool
  | .onNode n => (mesh.nodes.getD n default).isDomain
  | .onEdge a b => (mesh.nodes.getD a default).isDomain && (mesh.nodes.getD b default).isDomain

/-- Whether a point at this location is externally marked immovable. -/
def locIsFixed (mesh : Mesh) : PointLoc → Bool
  | .onNode n => (mesh.nodes.getD n default).isFixed
  | .onEdge a b => (mesh.nodes.getD a default).isFixed && (mesh.nodes.getD b default).isFixed

/-- Modelled from the spec: `Boundary::initialisePoint` (declared at
src/src/Boundary.h:179; body not in the available sources).  Initialise a
boundary point at the given coordinate, with the domain/fixed flags read off
the underlying grid location and empty topology. -/
def initialisePoint (mesh : Mesh) (lc : PointLoc × Coord) : BoundaryPoint :=
  { coord := lc.2, normal := ⟨0, 0⟩, length := 0, velocity := 0,
    negativeLimit := 0, positiveLimit := 0,
    isDomain := locIsDomain mesh lc.1, isFixed := locIsFixed mesh lc.1,
    nSegments := 0, segments := [], nNeighbours := 0, neighbours := [],
    sensitivities := [] }

/-- Modelled from the spec (§4.2): create the boundary point for one
location, or reuse the index returned by `isAdded` when a previously
processed adjacent element already created it.  Returns the new state and
the point's index. -/
def addPoint (mesh : Mesh) (st : DiscState) (lc : PointLoc × Coord) : DiscState × Nat :=
  let i := isAdded st.entries lc.1
  if 0 ≤ i then (st, i.toNat)
  else
    let idx := st.points.length
    ({ st with
        entries := st.entries ++ [(lc.1, idx)],
        points := st.points ++ [initialisePoint mesh lc] }, idx)

/-- Create or reuse the boundary points for all crossings of one element,
collecting their indices in order. -/
def addPoints (mesh : Mesh) : DiscState → List (PointLoc × Coord) → DiscState × List Nat
  | st, [] => (st, [])
  | st, lc :: rest =>
      let r := addPoint mesh st lc
      let r2 := addPoints mesh r.1 rest
      (r2.1, r.2 :: r2.2)

/-- Modelled from the spec (§4.2): process one cut element — produce or reuse
the boundary point for each edge the contour crosses, and when the element
produced exactly two (distinct) points, contribute the one segment joining
them, tagged with the element's index, its length accumulated into the
running total. -/
def processElement (euclid : Coord → Coord → ℚ) (mesh : Mesh) (φ : List ℚ)
    (elemIdx : Nat) (e : MeshElement) (st : DiscState) : DiscState :=
  if e.status = ElementStatus.cut then
    let crossings := dedupByLoc ((elementEdges e.nodes).filterMap fun ab =>
      edgeCrossing mesh φ ab.1 ab.2)
    let r := addPoints mesh st crossings
    match r.2 with
    | [p, q] =>
        if p = q then r.1
        else
          let len := euclid ((r.1.points.getD p default).coord) ((r.1.points.getD q default).coord)
          { r.1 with
              segments := r.1.segments ++ [⟨p, q, elemIdx, len, 1⟩],
              totalLength := r.1.totalLength + len }
    | _ => r.1
  else st

/-- Modelled from the spec: the deterministic sweep over the elements, in
grid traversal order, threading the sweep state. -/
def sweepElems (euclid : Coord → Coord → ℚ) (mesh : Mesh) (φ : List ℚ) :
    Nat → List MeshElement → DiscState → DiscState
  | _, [], st => st
  | i, e :: rest, st => sweepElems euclid mesh φ (i + 1) rest (processElement euclid mesh φ i e st)

/-- Modelled from the spec: the whole discretisation sweep — classify the
mesh, then walk its elements in order starting from the empty state. -/
def sweep (euclid : Coord → Coord → ℚ) (mesh : Mesh) (φ : List ℚ) : DiscState :=
  let m := computeMeshStatus mesh φ
  sweepElems euclid m φ 0 m.elements initState

/-- Modelled from the spec (§4.3): record, on boundary point `pIdx`, that it
belongs to segment `segIdx` and that its opposite endpoint `nbrIdx` is a
neighbour. -/
def addLink (pts : List BoundaryPoint) (pIdx segIdx nbrIdx : Nat) : List BoundaryPoint :=
  match pts.get? pIdx with
  | none => pts
  | some pt => pts.set pIdx
      { pt with
          segments := pt.segments ++ [segIdx], nSegments := pt.nSegments + 1,
          neighbours := pt.neighbours ++ [nbrIdx], nNeighbours := pt.nNeighbours + 1 }

/-- Modelled from the spec (§4.3): the topology linker — scan the segments
once and record, for each endpoint, which segment and opposite endpoint it
connects to. -/
def linkSegs : Nat → List BoundaryPoint → List BoundarySegment → List BoundaryPoint
  | _, pts, [] => pts
  | i, pts, s :: rest =>
      linkSegs (i + 1) (addLink (addLink pts s.start i s.«end») s.«end» i s.start) rest

/-- The boundary points of one sweep after topology linking. -/
def linkedPoints (euclid : Coord → Coord → ℚ) (mesh : Mesh) (φ : List ℚ) :
    List BoundaryPoint :=
  let st := sweep euclid mesh φ
  linkSegs 0 st.points st.segments

/-- Modelled from the spec: `Boundary::discretise` (declared at
src/src/Boundary.h:106; body not in the available sources).  Fail fast when
the field value count does not match the grid's node count (§7); otherwise
sweep the cut elements, link the topology, and surface a structural error
when any point ends up with more than two incident segments (§7); on success
return the boundary with its cached summary statistics. -/
def discretise (euclid : Coord → Coord → ℚ) (mesh : Mesh) (φ : List ℚ) :
    Except DiscretiseError Boundary :=
  if φ.length ≠ mesh.nodes.length then .error .fieldSizeMismatch
  else
    let st := sweep euclid mesh φ
    let pts := linkedPoints euclid mesh φ
    if pts.any fun p => decide (2 < p.nSegments) then .error .nonManifold
    else .ok
      { points := pts, segments := st.segments,
        nPoints := pts.length, nSegments := st.segments.length,
        length := st.totalLength }

/-- The state of the grid provider's records when `discretise` returns: the
classifier has annotated them (spec §4.1), unless the call failed fast on the
field-size check before touching the mesh. -/
def discretiseMeshAfter (mesh : Mesh) (φ : List ℚ) : Mesh :=
  if φ.length ≠ mesh.nodes.length then mesh else computeMeshStatus mesh φ

/-- Modelled from the spec: `Boundary::segmentLength` (declared at
src/src/Boundary.h:188; body not in the available sources).  The length of a
boundary segment: the distance between its two endpoint coordinates. -/
def segmentLength (euclid : Coord → Coord → ℚ) (pts : List BoundaryPoint)
    (s : BoundarySegment) : ℚ :=
  euclid ((pts.getD s.start default).coord) ((pts.getD s.«end» default).coord)

/-- Modelled from the spec: `Boundary::computePerimeter` (declared at
src/src/Boundary.h:121; body not in the available sources).  The local
perimeter around a boundary point: each incident segment's length split
evenly between the segment's two endpoints (§4.4). -/
def computePerimeter (b : Boundary) (point : BoundaryPoint) : ℚ :=
  (point.segments.map fun s => (b.segments.getD s default).length).sum / 2

/-- The `computeMeshStatus` member call as seen through the class interface:
the header declares it `const` (src/src/Boundary.h:146), so the call leaves
the Boundary object itself untouched and only the mesh argument, taken by
mutable reference, is annotated. -/
def Boundary.computeMeshStatusMember (b : Boundary) (mesh : Mesh) (φ : List ℚ) :
    Boundary × Mesh :=
  (b, computeMeshStatus mesh φ)

/-- A concrete computable stand-in distance for evaluating the model (the
taxicab distance); every theorem below holds for an arbitrary distance
function. -/
def taxi (p q : Coord) : ℚ :=
  |p.x - q.x| + |p.y - q.y|

/-- An unannotated grid node at (x, y), dom marking the domain boundary. -/
def mkNode (x y : ℚ) (dom : Bool) : MeshNode :=
  ⟨⟨x, y⟩, dom, false, .unassigned⟩

/-- An unannotated element with the given (counter-clockwise) node indices. -/
def mkElem (ns : List Nat) : MeshElement :=
  ⟨ns, .unassigned⟩

/-- A one-element unit-square mesh; all four nodes lie on the domain
boundary. -/
def mesh1 : Mesh :=
  { nodes := [mkNode 0 0 true, mkNode 1 0 true, mkNode 1 1 true, mkNode 0 1 true],
    elements := [mkElem [0, 1, 2, 3]] }

/-- A field on mesh1 with one node exactly on the contour and the rest
outside. -/
def phi1 : List ℚ := [0, 1, 1, 1]

/-- A field on mesh1 with one inside node, cutting two edges. -/
def phiCut : List ℚ := [-1, 1, 1, 1]

/-- A 4×4-node (3×3-element) unit-spacing mesh, row-major nodes, the twelve
outer nodes on the domain boundary and nodes 5, 6, 9, 10 interior. -/
def mesh2 : Mesh :=
  { nodes :=
      [mkNode 0 0 true, mkNode 1 0 true, mkNode 2 0 true, mkNode 3 0 true,
       mkNode 0 1 true, mkNode 1 1 false, mkNode 2 1 false, mkNode 3 1 true,
       mkNode 0 2 true, mkNode 1 2 false, mkNode 2 2 false, mkNode 3 2 true,
       mkNode 0 3 true, mkNode 1 3 true, mkNode 2 3 true, mkNode 3 3 true],
    elements :=
      [mkElem [0, 1, 5, 4], mkElem [1, 2, 6, 5], mkElem [2, 3, 7, 6],
       mkElem [4, 5, 9, 8], mkElem [5, 6, 10, 9], mkElem [6, 7, 11, 10],
       mkElem [8, 9, 13, 12], mkElem [9, 10, 14, 13], mkElem [10, 11, 15, 14]] }

/-- A field on mesh2 whose element (5,6,10,9) has the checkerboard sign
pattern: the crossing on the interior edge (5,6) receives a segment only
from the element below it. -/
def phi2 : List ℚ :=
  [1, -1, 1, 1,
   1, -1, 1, 1,
   1, 1, -1, 1,
   1, 1, 1, 1]

/-- A 3×3-node (2×2-element) unit-spacing mesh, row-major nodes, all on the
domain boundary except the centre node 4. -/
def mesh3 : Mesh :=
  { nodes :=
      [mkNode 0 0 true, mkNode 1 0 true, mkNode 2 0 true,
       mkNode 0 1 true, mkNode 1 1 false, mkNode 2 1 true,
       mkNode 0 2 true, mkNode 1 2 true, mkNode 2 2 true],
    elements :=
      [mkElem [0, 1, 4, 3], mkElem [1, 2, 5, 4],
       mkElem [3, 4, 7, 6], mkElem [4, 5, 8, 7]] }

/-- A field on mesh3 with the centre node exactly on the contour and one
extra crossing in each of the four elements: every element contributes a
segment through the centre point, which therefore collects four segments. -/
def phi3 : List ℚ := [1, -1, -1, 1, 0, 1, -1, -1, 1]

/-- The boundary produced by discretising phiCut on mesh1 (two midpoint
crossings joined by one segment), used to evaluate the theorems below on a
concrete run. -/
def bCut : Boundary :=
  (discretise taxi mesh1 phiCut).toOption.getD default

/-- The invariant maintained by the discretisation sweep: the deduplication
record lists exactly the created points, in creation order; no two points
share a grid location; the running total is the sum of the created
segments' lengths; every created segment joins two distinct existing points
and records as its length the distance between their coordinates; and the
topology fields of every point are still empty (linking happens later). -/
def Inv (euclid : Coord → Coord → ℚ) (st : DiscState) : Prop :=
  st.entries.map Prod.snd = List.range st.points.length ∧
  (st.entries.map Prod.fst).Nodup ∧
  st.totalLength = (st.segments.map BoundarySegment.length).sum ∧
  (∀ s ∈ st.segments, s.start < st.points.length ∧ s.«end» < st.points.length ∧
    s.start ≠ s.«end» ∧
    s.length = euclid ((st.points.getD s.start default).coord)
      ((st.points.getD s.«end» default).coord)) ∧
  (∀ p ∈ st.points, p.segments = [] ∧ p.neighbours = [] ∧
    p.nSegments = 0 ∧ p.nNeighbours = 0)

/-- The total incidence sum: over all points, the sum of `f` over the
segment indices recorded on the point. -/
def segSum (f : Nat → ℚ) (pts : List BoundaryPoint) : ℚ :=
  (pts.map fun p => (p.segments.map f).sum).sum

/-! ### List helper lemmas -/

theorem getD_set_self {α : Type _} [Inhabited α] :
    ∀ (l : List α) (i : Nat) (a : α), i < l.length →
      (l.set i a).getD i default = a
  | _ :: _, 0, _, _ => rfl
  | _ :: xs, i + 1, a, h =>
      getD_set_self xs i a (Nat.lt_of_succ_lt_succ h)

theorem getD_set_ne {α : Type _} [Inhabited α] :
    ∀ (l : List α) (i j : Nat) (a : α), i ≠ j →
      (l.set i a).getD j default = l.getD j default
  | [], _, _, _, _ => rfl
  | _ :: _, 0, 0, _, h => absurd rfl h
  | _ :: _, 0, _ + 1, _, _ => rfl
  | _ :: _, _ + 1, 0, _, _ => rfl
  | _ :: xs, i + 1, j + 1, a, h =>
      getD_set_ne xs i j a (fun hij => h (by omega))

theorem sumMap_set {α : Type _} [Inhabited α] (g : α → ℚ) :
    ∀ (l : List α) (i : Nat) (a : α), i < l.length →
      ((l.set i a).map g).sum = (l.map g).sum + g a - g (l.getD i default)
  | x :: xs, 0, a, _ => by simp [List.map, List.sum_cons]; ring
  | x :: xs, i + 1, a, h => by
      have ih := sumMap_set g xs i a (Nat.lt_of_succ_lt_succ h)
      simp only [List.set, List.map, List.sum_cons, List.getD_cons_succ, ih]
      ring

theorem sumMap_div_two (l : List ℚ) : (l.map fun q => q / 2).sum = l.sum / 2 := by
  induction l with
  | nil => simp
  | cons x xs ih => simp [List.sum_cons, ih]; ring

theorem sumMap_two_mul {α : Type _} (l : List α) (g : α → ℚ) :
    (l.map fun j => 2 * g j).sum = 2 * (l.map g).sum := by
  induction l with
  | nil => simp
  | cons x xs ih =>
      rw [List.map_cons, List.sum_cons, List.map_cons, List.sum_cons, ih]
      ring

/-! ### Lemmas about the deduplication record (`isAdded`) -/

theorem isAdded_eq_neg_one_iff (entries : List (PointLoc × Nat)) (loc : PointLoc) :
    isAdded entries loc = -1 ↔ loc ∉ entries.map Prod.fst := by
  induction entries with
  | nil => simp [isAdded]
  | cons e rest ih =>
      obtain ⟨l, i⟩ := e
      by_cases h : l = loc
      · subst h
        simp [isAdded]
      · simp [isAdded, h, ih, Ne.symm h]

theorem isAdded_nonneg_mem (entries : List (PointLoc × Nat)) (loc : PointLoc)
    (h : 0 ≤ isAdded entries loc) :
    (loc, (isAdded entries loc).toNat) ∈ entries := by
  induction entries with
  | nil => simp [isAdded] at h
  | cons e rest ih =>
      obtain ⟨l, i⟩ := e
      by_cases hl : l = loc
      · subst hl
        simp [isAdded]
      · simp only [isAdded, if_neg hl] at h ⊢
        exact List.mem_cons_of_mem _ (ih h)

theorem isAdded_of_mem (entries : List (PointLoc × Nat)) (loc : PointLoc) (j : Nat)
    (hnd : (entries.map Prod.fst).Nodup) (hmem : (loc, j) ∈ entries) :
    isAdded entries loc = Int.ofNat j := by
  induction entries with
  | nil => simp at hmem
  | cons e rest ih =>
      obtain ⟨l, i⟩ := e
      simp only [List.map_cons, List.nodup_cons] at hnd
      rcases List.mem_cons.mp hmem with he | ht
      · injection he with h1 h2
        subst h1; subst h2
        simp [isAdded]
      · have hl : l ≠ loc := by
          intro heq
          subst heq
          exact hnd.1 (List.mem_map.mpr ⟨(l, j), ht, rfl⟩)
        simp only [isAdded, if_neg hl]
        exact ih hnd.2 ht

theorem neg_one_le_isAdded (entries : List (PointLoc × Nat)) (loc : PointLoc) :
    -1 ≤ isAdded entries loc := by
  induction entries with
  | nil => simp [isAdded]
  | cons e rest ih =>
      obtain ⟨l, i⟩ := e
      by_cases h : l = loc <;> simp [isAdded, h, ih]
      omega

/-! ### The sweep invariant -/


theorem initState_inv (euclid : Coord → Coord → ℚ) : Inv euclid initState := by
  refine ⟨rfl, List.nodup_nil, rfl, ?_, ?_⟩ <;> intro x hx <;> simp [initState] at hx

theorem addPoint_spec (euclid : Coord → Coord → ℚ) (mesh : Mesh) (st : DiscState)
    (lc : PointLoc × Coord) (h : Inv euclid st) :
    Inv euclid (addPoint mesh st lc).1 ∧
    (addPoint mesh st lc).2 < (addPoint mesh st lc).1.points.length ∧
    st.points.length ≤ (addPoint mesh st lc).1.points.length ∧
    (addPoint mesh st lc).1.segments = st.segments ∧
    (addPoint mesh st lc).1.totalLength = st.totalLength := by
  obtain ⟨h1, h2, h3, h4, h5⟩ := h
  unfold addPoint
  by_cases hge : 0 ≤ isAdded st.entries lc.1
  · simp only [if_pos hge]
    refine ⟨⟨h1, h2, h3, h4, h5⟩, ?_, le_refl _, by trivial, by trivial⟩
    have hmem := isAdded_nonneg_mem st.entries lc.1 hge
    have hin : (isAdded st.entries lc.1).toNat ∈ st.entries.map Prod.snd :=
      List.mem_map.mpr ⟨_, hmem, rfl⟩
    rw [h1] at hin
    exact List.mem_range.mp hin
  · simp only [if_neg hge]
    have heq : isAdded st.entries lc.1 = -1 := by
      have := neg_one_le_isAdded st.entries lc.1
      omega
    have hnotmem : lc.1 ∉ st.entries.map Prod.fst :=
      (isAdded_eq_neg_one_iff st.entries lc.1).mp heq
    refine ⟨⟨?_, ?_, h3, ?_, ?_⟩, ?_, ?_, by trivial, by trivial⟩
    · simp only [List.map_append, h1, List.length_append, List.length_cons,
        List.length_nil, List.map_cons, List.map_nil]
      rw [List.range_succ]
    · simp only [List.map_append, List.map_cons, List.map_nil]
      have : (st.entries.map Prod.fst ++ [lc.1]).Nodup := by
        rw [List.nodup_append]
        exact ⟨h2, List.nodup_singleton _, by simpa using hnotmem⟩
      simpa using this
    · intro s hs
      obtain ⟨hb1, hb2, hb3, hb4⟩ := h4 s hs
      refine ⟨?_, ?_, hb3, ?_⟩
      · simp only [List.length_append, List.length_cons, List.length_nil]; omega
      · simp only [List.length_append, List.length_cons, List.length_nil]; omega
      · rw [List.getD_append _ _ _ _ hb1, List.getD_append _ _ _ _ hb2]
        exact hb4
    · intro p hp
      rcases List.mem_append.mp hp with hold | hnew
      · exact h5 p hold
      · simp only [List.mem_cons, List.not_mem_nil, or_false] at hnew
        subst hnew
        exact ⟨rfl, rfl, rfl, rfl⟩
    · simp only [List.length_append, List.length_cons, List.length_nil]; omega
    · simp only [List.length_append, List.length_cons, List.length_nil]; omega

theorem addPoints_spec (euclid : Coord → Coord → ℚ) (mesh : Mesh) :
    ∀ (cs : List (PointLoc × Coord)) (st : DiscState), Inv euclid st →
      Inv euclid (addPoints mesh st cs).1 ∧
      st.points.length ≤ (addPoints mesh st cs).1.points.length ∧
      (addPoints mesh st cs).1.segments = st.segments ∧
      (addPoints mesh st cs).1.totalLength = st.totalLength ∧
      (∀ j ∈ (addPoints mesh st cs).2, j < (addPoints mesh st cs).1.points.length)
  | [], st, h => ⟨h, le_refl _, rfl, rfl, by simp [addPoints]⟩
  | lc :: rest, st, h => by
      obtain ⟨hInv, hlt, hle, hseg, hlen⟩ := addPoint_spec euclid mesh st lc h
      obtain ⟨ih1, ih2, ih3, ih4, ih5⟩ :=
        addPoints_spec euclid mesh rest (addPoint mesh st lc).1 hInv
      refine ⟨ih1, le_trans hle ih2, by rw [show (addPoints mesh st (lc :: rest)).1 =
        (addPoints mesh (addPoint mesh st lc).1 rest).1 from rfl, ih3, hseg],
        by rw [show (addPoints mesh st (lc :: rest)).1 =
          (addPoints mesh (addPoint mesh st lc).1 rest).1 from rfl, ih4, hlen], ?_⟩
      intro j hj
      have hj2 : j = (addPoint mesh st lc).2 ∨
          j ∈ (addPoints mesh (addPoint mesh st lc).1 rest).2 := by
        simpa [addPoints] using hj
      rcases hj2 with rfl | hj3
      · exact lt_of_lt_of_le hlt ih2
      · exact ih5 j hj3

theorem processElement_inv (euclid : Coord → Coord → ℚ) (mesh : Mesh) (φ : List ℚ)
    (i : Nat) (e : MeshElement) (st : DiscState) (h : Inv euclid st) :
    Inv euclid (processElement euclid mesh φ i e st) := by
  unfold processElement
  split
  · obtain ⟨hInv, _hle, hseg, hlen, hbound⟩ := addPoints_spec euclid mesh
      (dedupByLoc ((elementEdges e.nodes).filterMap fun ab =>
        edgeCrossing mesh φ ab.1 ab.2)) st h
    dsimp only
    split
    · next p q heq =>
        split
        · exact hInv
        · next hpq =>
            obtain ⟨i1, i2, i3, i4, i5⟩ := hInv
            have hp : p < (addPoints mesh st (dedupByLoc ((elementEdges e.nodes).filterMap
                fun ab => edgeCrossing mesh φ ab.1 ab.2))).1.points.length :=
              hbound p (by rw [heq]; exact List.mem_cons_self _ _)
            have hq : q < (addPoints mesh st (dedupByLoc ((elementEdges e.nodes).filterMap
                fun ab => edgeCrossing mesh φ ab.1 ab.2))).1.points.length :=
              hbound q (by rw [heq]; exact List.mem_cons_of_mem _ (List.mem_cons_self _ _))
            refine ⟨i1, i2, ?_, ?_, i5⟩
            · simp only [List.map_append, List.sum_append, List.map_cons, List.map_nil,
                List.sum_cons, List.sum_nil]
              rw [i3]
              ring
            · intro s hs
              rcases List.mem_append.mp hs with hold | hnew
              · exact i4 s hold
              · simp only [List.mem_cons, List.not_mem_nil, or_false] at hnew
                subst hnew
                exact ⟨hp, hq, hpq, rfl⟩
    · exact hInv
  · exact h

theorem sweepElems_inv (euclid : Coord → Coord → ℚ) (mesh : Mesh) (φ : List ℚ) :
    ∀ (es : List MeshElement) (i : Nat) (st : DiscState), Inv euclid st →
      Inv euclid (sweepElems euclid mesh φ i es st)
  | [], _, _, h => h
  | e :: rest, i, st, h =>
      sweepElems_inv euclid mesh φ rest (i + 1) _
        (processElement_inv euclid mesh φ i e st h)

theorem sweep_inv (euclid : Coord → Coord → ℚ) (mesh : Mesh) (φ : List ℚ) :
    Inv euclid (sweep euclid mesh φ) := by
  unfold sweep
  exact sweepElems_inv euclid (computeMeshStatus mesh φ) φ _ 0 initState
    (initState_inv euclid)

/-! ### Lemmas about the topology linker -/

theorem addLink_length (pts : List BoundaryPoint) (pIdx segIdx nbrIdx : Nat) :
    (addLink pts pIdx segIdx nbrIdx).length = pts.length := by
  unfold addLink
  cases hg : pts.get? pIdx <;> simp

theorem linkSegs_length : ∀ (segs : List BoundarySegment) (i : Nat) (pts : List BoundaryPoint),
    (linkSegs i pts segs).length = pts.length
  | [], _, _ => rfl
  | _ :: rest, i, _ => by
      rw [linkSegs, linkSegs_length rest, addLink_length, addLink_length]

theorem addLink_getD_coord (pts : List BoundaryPoint) (pIdx segIdx nbrIdx j : Nat) :
    ((addLink pts pIdx segIdx nbrIdx).getD j default).coord = (pts.getD j default).coord := by
  unfold addLink
  cases hg : pts.get? pIdx with
  | none => rfl
  | some pt =>
      have hlt : pIdx < pts.length := List.get?_eq_some.mp hg |>.1
      by_cases hj : pIdx = j
      · subst hj
        rw [getD_set_self _ _ _ hlt]
        have : pts.getD pIdx default = pt := by
          rw [List.getD_eq_getD_get?, hg, Option.getD_some]
        rw [this]
      · rw [getD_set_ne _ _ _ _ hj]

theorem linkSegs_getD_coord :
    ∀ (segs : List BoundarySegment) (i : Nat) (pts : List BoundaryPoint) (j : Nat),
      ((linkSegs i pts segs).getD j default).coord = (pts.getD j default).coord
  | [], _, _, _ => rfl
  | s :: rest, i, pts, j => by
      rw [linkSegs, linkSegs_getD_coord rest, addLink_getD_coord, addLink_getD_coord]

theorem addLink_counts (pts : List BoundaryPoint) (pIdx segIdx nbrIdx : Nat)
    (h : ∀ p ∈ pts, p.nNeighbours = p.nSegments) :
    ∀ p ∈ addLink pts pIdx segIdx nbrIdx, p.nNeighbours = p.nSegments := by
  unfold addLink
  cases hg : pts.get? pIdx with
  | none => exact h
  | some pt =>
      intro p hp
      rcases List.mem_or_eq_of_mem_set hp with hmem | heq
      · exact h p hmem
      · subst heq
        have hptmem : pt ∈ pts := List.get?_mem hg
        simp [h pt hptmem]

theorem linkSegs_counts :
    ∀ (segs : List BoundarySegment) (i : Nat) (pts : List BoundaryPoint),
      (∀ p ∈ pts, p.nNeighbours = p.nSegments) →
      ∀ p ∈ linkSegs i pts segs, p.nNeighbours = p.nSegments
  | [], _, _, h => h
  | _ :: rest, i, _, h =>
      linkSegs_counts rest (i + 1) _
        (addLink_counts _ _ _ _ (addLink_counts _ _ _ _ h))


theorem addLink_segSum (f : Nat → ℚ) (pts : List BoundaryPoint) (pIdx segIdx nbrIdx : Nat)
    (hlt : pIdx < pts.length) :
    segSum f (addLink pts pIdx segIdx nbrIdx) = segSum f pts + f segIdx := by
  unfold addLink
  have hg : pts.get? pIdx = some (pts.get ⟨pIdx, hlt⟩) := List.get?_eq_get hlt
  rw [hg]
  unfold segSum
  rw [sumMap_set _ _ _ _ hlt]
  have hgd : pts.getD pIdx default = pts.get ⟨pIdx, hlt⟩ := by
    rw [List.getD_eq_getD_get?, hg, Option.getD_some]
  rw [hgd]
  simp only [List.map_append, List.sum_append, List.map_cons, List.map_nil,
    List.sum_cons, List.sum_nil]
  ring

theorem linkSegs_segSum (f : Nat → ℚ) :
    ∀ (segs : List BoundarySegment) (i : Nat) (pts : List BoundaryPoint),
      (∀ s ∈ segs, s.start < pts.length ∧ s.«end» < pts.length) →
      segSum f (linkSegs i pts segs) =
        segSum f pts + ((List.range segs.length).map fun j => 2 * f (i + j)).sum
  | [], _, _, _ => by simp [linkSegs]
  | s :: rest, i, pts, hb => by
      have hs := hb s (List.mem_cons_self _ _)
      have h1 : segSum f (addLink pts s.start i s.«end») = segSum f pts + f i :=
        addLink_segSum f pts _ _ _ hs.1
      have hlen1 : (addLink pts s.start i s.«end»).length = pts.length :=
        addLink_length _ _ _ _
      have h2 : segSum f (addLink (addLink pts s.start i s.«end») s.«end» i s.start) =
          segSum f pts + f i + f i := by
        rw [addLink_segSum f _ _ _ _ (hlen1 ▸ hs.2), h1]
      have hb2 : ∀ s' ∈ rest,
          s'.start < (addLink (addLink pts s.start i s.«end») s.«end» i s.start).length ∧
          s'.«end» < (addLink (addLink pts s.start i s.«end») s.«end» i s.start).length := by
        intro s' hs'
        rw [addLink_length, addLink_length]
        exact hb s' (List.mem_cons_of_mem _ hs')
      rw [linkSegs, linkSegs_segSum f rest (i + 1) _ hb2, h2]
      have hr : ((List.range (rest.length + 1)).map fun j => 2 * f (i + j)).sum =
          2 * f i + ((List.range rest.length).map fun j => 2 * f (i + 1 + j)).sum := by
        rw [List.range_succ_eq_map, List.map_cons, List.sum_cons, List.map_map]
        congr 1
        refine congrArg List.sum (List.map_congr_left ?_)
        intro j hj
        show 2 * f (i + Nat.succ j) = 2 * f (i + 1 + j)
        rw [show i + Nat.succ j = i + 1 + j from by omega]
      rw [List.length_cons, hr]
      ring

theorem segSum_of_empty (f : Nat → ℚ) (pts : List BoundaryPoint)
    (h : ∀ p ∈ pts, p.segments = []) : segSum f pts = 0 := by
  apply List.sum_eq_zero
  intro x hx
  obtain ⟨p, hp, rfl⟩ := List.mem_map.mp hx
  rw [h p hp]
  simp

theorem sum_range_getD {α : Type _} [Inhabited α] (g : α → ℚ) (l : List α) :
    ((List.range l.length).map fun j => g (l.getD j default)).sum = (l.map g).sum := by
  induction l with
  | nil => simp
  | cons a t ih =>
      have hmm : (List.range t.length).map
            ((fun j => g ((a :: t).getD j default)) ∘ Nat.succ) =
          (List.range t.length).map fun j => g (t.getD j default) :=
        List.map_congr_left fun j _ => rfl
      rw [List.length_cons, List.range_succ_eq_map, List.map_cons, List.sum_cons,
        List.map_map, hmm, ih, List.map_cons, List.sum_cons]
      rfl

/-! ### Inversion of a successful discretisation -/

theorem discretise_ok_elim (euclid : Coord → Coord → ℚ) (mesh : Mesh) (φ : List ℚ)
    (b : Boundary) (h : discretise euclid mesh φ = .ok b) :
    φ.length = mesh.nodes.length ∧
    ((linkedPoints euclid mesh φ).any fun p => decide (2 < p.nSegments)) = false ∧
    b.points = linkedPoints euclid mesh φ ∧
    b.segments = (sweep euclid mesh φ).segments ∧
    b.length = (sweep euclid mesh φ).totalLength := by
  unfold discretise at h
  split at h
  · exact absurd h (by simp)
  · next hlen =>
      dsimp only at h
      split at h
      · exact absurd h (by simp)
      · next hany =>
          injection h with hb
          subst hb
          exact ⟨of_not_not hlen, by simpa using hany, rfl, rfl, rfl⟩

/-! ### The claims -/

/-- C2: after `discretise` completes, the Boundary's cached field `length`
equals the sum of `segments[i].length` over all i, and each segment's
recorded length is the endpoint distance as computed by `segmentLength` on
the final point collection. -/
theorem C2_length_is_sum_of_segment_lengths (euclid : Coord → Coord → ℚ)
    (mesh : Mesh) (φ : List ℚ) (b : Boundary)
    (h : discretise euclid mesh φ = .ok b) :
    b.length = (b.segments.map BoundarySegment.length).sum ∧
    ∀ s ∈ b.segments, s.length = segmentLength euclid b.points s := by
  obtain ⟨hlen, hany, hpts, hsegs, hlength⟩ := discretise_ok_elim euclid mesh φ b h
  obtain ⟨i1, i2, i3, i4, i5⟩ := sweep_inv euclid mesh φ
  constructor
  · rw [hlength, hsegs, i3]
  · intro s hs
    rw [hsegs] at hs
    obtain ⟨hb1, hb2, hb3, hb4⟩ := i4 s hs
    rw [hpts]
    unfold segmentLength linkedPoints
    dsimp only
    rw [linkSegs_getD_coord, linkSegs_getD_coord]
    exact hb4

/-- C2 witness: the theorem applied to a concrete discretisation run. -/
theorem C2_length_is_sum_of_segment_lengths_witness :
    bCut.length = (bCut.segments.map BoundarySegment.length).sum :=
  (C2_length_is_sum_of_segment_lengths taxi mesh1 phiCut bCut rfl).1

/-- C3: `computePerimeter` returns each incident segment's length split
evenly between the segment's two endpoints, and over a discretised snapshot
the sum of `computePerimeter` over all points equals the total boundary
length (exactly, in the rational model). -/
theorem C3_perimeter_sum (euclid : Coord → Coord → ℚ) (mesh : Mesh) (φ : List ℚ)
    (b : Boundary) (h : discretise euclid mesh φ = .ok b) :
    (∀ p ∈ b.points, computePerimeter b p =
      (p.segments.map fun s => (b.segments.getD s default).length).sum / 2) ∧
    (b.points.map (computePerimeter b)).sum = b.length := by
  obtain ⟨hlen, hany, hpts, hsegs, hlength⟩ := discretise_ok_elim euclid mesh φ b h
  obtain ⟨i1, i2, i3, i4, i5⟩ := sweep_inv euclid mesh φ
  refine ⟨fun p _ => rfl, ?_⟩
  have hmapped : b.points.map (computePerimeter b) =
      (b.points.map fun p =>
        (p.segments.map fun s => (b.segments.getD s default).length).sum).map
          fun q => q / 2 := by
    rw [List.map_map]
    rfl
  rw [hmapped, sumMap_div_two]
  have hsum : segSum (fun s => (b.segments.getD s default).length) b.points =
      2 * ((sweep euclid mesh φ).segments.map BoundarySegment.length).sum := by
    rw [hpts]
    unfold linkedPoints
    dsimp only
    rw [linkSegs_segSum _ _ 0 _ fun s hs => ⟨(i4 s hs).1, (i4 s hs).2.1⟩]
    rw [segSum_of_empty _ _ fun p hp => (i5 p hp).1, zero_add]
    have hzero : ((List.range (sweep euclid mesh φ).segments.length).map
          fun j => 2 * (b.segments.getD (0 + j) default).length).sum =
        ((List.range (sweep euclid mesh φ).segments.length).map
          fun j => 2 * (b.segments.getD j default).length).sum := by
      refine congrArg List.sum (List.map_congr_left ?_)
      intro j _
      rw [Nat.zero_add]
    rw [hzero, hsegs]
    rw [sumMap_two_mul (List.range (sweep euclid mesh φ).segments.length)
      fun j => ((sweep euclid mesh φ).segments.getD j default).length]
    rw [sum_range_getD BoundarySegment.length]
  unfold segSum at hsum
  rw [hsum, hlength, i3]
  ring

/-- C3 witness: the theorem applied to a concrete discretisation run. -/
theorem C3_perimeter_sum_witness :
    (bCut.points.map (computePerimeter bCut)).sum = bCut.length :=
  (C3_perimeter_sum taxi mesh1 phiCut bCut rfl).2

/-- C1: on an element edge whose endpoint values have opposite sign (their
product is negative) the crossing is placed at the linearly interpolated
zero crossing, position = node_a + (0 − value_a) / (value_b − value_a) ×
(node_b − node_a), componentwise; and when an endpoint's value is exactly
zero the point's coordinate is that node's coordinate, with no
interpolation. -/
theorem C1_interpolated_crossing (mesh : Mesh) (φ : List ℚ) (a b : Nat) :
    (φ.getD a 0 = 0 →
      edgeCrossing mesh φ a b = some (.onNode a, nodeCoord mesh a)) ∧
    (φ.getD a 0 ≠ 0 → φ.getD b 0 = 0 →
      edgeCrossing mesh φ a b = some (.onNode b, nodeCoord mesh b)) ∧
    (φ.getD a 0 * φ.getD b 0 < 0 →
      edgeCrossing mesh φ a b = some (.onEdge (min a b) (max a b),
        ⟨(nodeCoord mesh a).x + (0 - φ.getD a 0) / (φ.getD b 0 - φ.getD a 0) *
           ((nodeCoord mesh b).x - (nodeCoord mesh a).x),
         (nodeCoord mesh a).y + (0 - φ.getD a 0) / (φ.getD b 0 - φ.getD a 0) *
           ((nodeCoord mesh b).y - (nodeCoord mesh a).y)⟩)) := by
  refine ⟨?_, ?_, ?_⟩
  · intro ha
    unfold edgeCrossing
    dsimp only
    rw [if_pos ha]
  · intro ha hb
    unfold edgeCrossing
    dsimp only
    rw [if_neg ha, if_pos hb]
  · intro hab
    have hcase := mul_neg_iff.mp hab
    unfold edgeCrossing
    dsimp only
    rcases hcase with ⟨ha, hb⟩ | ⟨ha, hb⟩
    · rw [if_neg ha.ne', if_neg hb.ne, if_pos (Or.inr ⟨hb, ha⟩)]
      rfl
    · rw [if_neg ha.ne, if_neg hb.ne', if_pos (Or.inl ⟨ha, hb⟩)]
      rfl

/-- C1 witness: the theorem applied to concrete edges of the one-element
mesh — a sign-change edge interpolates, a zero-valued node is reused as the
point's coordinate. -/
theorem C1_interpolated_crossing_witness :
    edgeCrossing mesh1 phiCut 0 1 = some (.onEdge (min 0 1) (max 0 1),
      ⟨(nodeCoord mesh1 0).x + (0 - phiCut.getD 0 0) / (phiCut.getD 1 0 - phiCut.getD 0 0) *
         ((nodeCoord mesh1 1).x - (nodeCoord mesh1 0).x),
       (nodeCoord mesh1 0).y + (0 - phiCut.getD 0 0) / (phiCut.getD 1 0 - phiCut.getD 0 0) *
         ((nodeCoord mesh1 1).y - (nodeCoord mesh1 0).y)⟩) ∧
    edgeCrossing mesh1 phi1 0 1 = some (.onNode 0, nodeCoord mesh1 0) :=
  ⟨(C1_interpolated_crossing mesh1 phiCut 0 1).2.2
     (show (-1 : ℚ) * 1 < 0 by norm_num),
   (C1_interpolated_crossing mesh1 phi1 0 1).1 (by decide)⟩

/-- C4: the deduplication machinery — `isAdded` returns minus one exactly
when no point was created at the location, and returns the index of the
point created there otherwise; consequently the sweep's deduplication
record pairs the distinct locations, one each, with the point indices
0, 1, … in creation order, so no two boundary points occupy the same
grid-edge/node location. -/
theorem C4_no_duplicate_points :
    (∀ (entries : List (PointLoc × Nat)) (loc : PointLoc),
      isAdded entries loc = -1 ↔ loc ∉ entries.map Prod.fst) ∧
    (∀ (entries : List (PointLoc × Nat)) (loc : PointLoc) (i : Nat),
      (entries.map Prod.fst).Nodup → (loc, i) ∈ entries →
        isAdded entries loc = Int.ofNat i) ∧
    (∀ (euclid : Coord → Coord → ℚ) (mesh : Mesh) (φ : List ℚ),
      ((sweep euclid mesh φ).entries.map Prod.fst).Nodup ∧
      (sweep euclid mesh φ).entries.map Prod.snd =
        List.range (sweep euclid mesh φ).points.length) :=
  ⟨isAdded_eq_neg_one_iff,
   fun entries loc i hnd hmem => isAdded_of_mem entries loc i hnd hmem,
   fun euclid mesh φ =>
     ⟨(sweep_inv euclid mesh φ).2.1, (sweep_inv euclid mesh φ).1⟩⟩

/-- C4 witness: the theorem applied to a concrete deduplication record. -/
theorem C4_no_duplicate_points_witness :
    isAdded [(PointLoc.onNode 0, 0), (PointLoc.onEdge 1 2, 1)] (PointLoc.onEdge 1 2) =
      Int.ofNat 1 :=
  C4_no_duplicate_points.2.1 [(PointLoc.onNode 0, 0), (PointLoc.onEdge 1 2, 1)]
    (PointLoc.onEdge 1 2) 1 (by decide) (by decide)

/-- C5 counterexample: the claim fails on the modelled code.  First run: on
the one-element mesh with one zero-valued corner node and all other nodes
outside, discretise succeeds and produces a single boundary point with
`isDomain = true` and zero neighbours — contradicting "exactly one or two
neighbours, never zero" for domain points.  Second run: on the 4×4-node
mesh whose field has a checkerboard-sign element, discretise succeeds and
the interior (non-domain) crossing on edge (5,6) carries only one segment —
contradicting "every non-domain interior point has nSegments == 2". -/
theorem C5_counterexample :
    ((discretise taxi mesh1 phi1).toOption.elim false fun b =>
      b.points.any fun p => p.isDomain && decide (p.nNeighbours = 0)) = true ∧
    ((discretise taxi mesh2 phi2).toOption.elim false fun b =>
      b.points.any fun p => !p.isDomain && decide (p.nSegments ≠ 2)) = true := by
  constructor <;> rfl

/-- C5 (amended): after a successful discretise-and-link, every boundary
point has `nNeighbours` equal to `nSegments`, and no point carries more
than two segments; domain-boundary points, and points where the contour
degenerates to a single node or a non-segment-producing element, may have
fewer than two (even zero) neighbours. -/
theorem C5_neighbours_match_segments (euclid : Coord → Coord → ℚ) (mesh : Mesh)
    (φ : List ℚ) (b : Boundary) (h : discretise euclid mesh φ = .ok b) :
    ∀ p ∈ b.points, p.nNeighbours = p.nSegments ∧ p.nSegments ≤ 2 := by
  obtain ⟨hlen, hany, hpts, hsegs, hlength⟩ := discretise_ok_elim euclid mesh φ b h
  obtain ⟨i1, i2, i3, i4, i5⟩ := sweep_inv euclid mesh φ
  intro p hp
  rw [hpts] at hp
  constructor
  · revert hp
    unfold linkedPoints
    dsimp only
    intro hp
    exact linkSegs_counts _ 0 _
      (fun q hq => by rw [(i5 q hq).2.2.1, (i5 q hq).2.2.2]) p hp
  · have hfalse := List.any_eq_false.mp hany p hp
    simp only [decide_eq_true_eq] at hfalse
    omega

/-- C5 witness: the amended theorem applied to a concrete run. -/
theorem C5_neighbours_match_segments_witness :
    (bCut.points.getD 0 default).nNeighbours = (bCut.points.getD 0 default).nSegments :=
  (C5_neighbours_match_segments taxi mesh1 phiCut bCut rfl
    (bCut.points.getD 0 default) (List.mem_cons_self _ _)).1

/-- C6: a non-manifold contour — topology linking giving some point more
than two incident segments — makes discretise surface a structural error to
the caller instead of returning a boundary. -/
theorem C6_nonmanifold_is_error (euclid : Coord → Coord → ℚ) (mesh : Mesh)
    (φ : List ℚ) (hlen : φ.length = mesh.nodes.length)
    (h : ((linkedPoints euclid mesh φ).any fun p => decide (2 < p.nSegments)) = true) :
    discretise euclid mesh φ = .error .nonManifold := by
  unfold discretise
  rw [if_neg (by omega : ¬φ.length ≠ mesh.nodes.length)]
  dsimp only
  rw [if_pos h]

/-- C6 witness: on the 3×3 mesh whose centre node is exactly on the contour
with four cut elements around it, the centre point collects four segments
and discretise reports the non-manifold error. -/
theorem C6_nonmanifold_is_error_witness :
    phi3.length = mesh3.nodes.length ∧
    ((linkedPoints taxi mesh3 phi3).any fun p => decide (2 < p.nSegments)) = true ∧
    discretise taxi mesh3 phi3 = .error .nonManifold :=
  ⟨rfl, by decide, C6_nonmanifold_is_error taxi mesh3 phi3 rfl (by decide)⟩

/-- C7: when the field provider's value count differs from the grid's node
count, discretise fails fast with the field-size error and returns no
boundary to use. -/
theorem C7_size_mismatch_fails_fast (euclid : Coord → Coord → ℚ) (mesh : Mesh)
    (φ : List ℚ) (h : φ.length ≠ mesh.nodes.length) :
    discretise euclid mesh φ = .error .fieldSizeMismatch := by
  unfold discretise
  rw [if_pos h]

/-- C7 witness: an empty field on the four-node mesh. -/
theorem C7_size_mismatch_fails_fast_witness :
    ([] : List ℚ).length ≠ mesh1.nodes.length ∧
    discretise taxi mesh1 [] = .error .fieldSizeMismatch :=
  ⟨by decide, C7_size_mismatch_fails_fast taxi mesh1 [] (by decide)⟩

/-- C8: discretise is deterministic — for a fixed grid, traversal order and
field snapshot, two successful calls produce identical point and segment
collections and the same total length. -/
theorem C8_deterministic (euclid : Coord → Coord → ℚ) (mesh : Mesh) (φ : List ℚ)
    (b₁ b₂ : Boundary) (h₁ : discretise euclid mesh φ = .ok b₁)
    (h₂ : discretise euclid mesh φ = .ok b₂) :
    b₁.points = b₂.points ∧ b₁.segments = b₂.segments ∧ b₁.length = b₂.length := by
  rw [h₁] at h₂
  injection h₂ with hb
  rw [hb]
  exact ⟨rfl, rfl, rfl⟩

/-- C8 witness: the theorem applied to two calls on the same concrete
input. -/
theorem C8_deterministic_witness :
    bCut.points = bCut.points ∧ bCut.segments = bCut.segments ∧
    bCut.length = bCut.length :=
  C8_deterministic taxi mesh1 phiCut bCut bCut rfl rfl

/-- C9 counterexample: the claim that every field of the Mesh is unchanged
when discretise returns fails on the modelled code — on the one-element
mesh the classification pass annotates the node and element status records
of the grid provider (spec §4.1), so the mesh after the call differs from
the mesh before it. -/
theorem C9_counterexample : discretiseMeshAfter mesh1 phiCut ≠ mesh1 := by
  decide

/-- C9 (amended): the only grid-provider state discretise writes is the
node/element status annotation of the classification pass; node
coordinates, domain/fixed flags and element connectivity are unchanged
when the call returns. -/
theorem C9_only_status_annotated (mesh : Mesh) (φ : List ℚ) :
    (discretiseMeshAfter mesh φ).nodes.map (fun n => (n.coord, n.isDomain, n.isFixed)) =
      mesh.nodes.map (fun n => (n.coord, n.isDomain, n.isFixed)) ∧
    (discretiseMeshAfter mesh φ).elements.map MeshElement.nodes =
      mesh.elements.map MeshElement.nodes := by
  unfold discretiseMeshAfter
  split
  · exact ⟨rfl, rfl⟩
  · unfold computeMeshStatus
    constructor
    · dsimp only
      have hgen : ∀ (l : List MeshNode) (i : Nat),
          (annotateNodes φ i l).map (fun n => (n.coord, n.isDomain, n.isFixed)) =
            l.map fun n => (n.coord, n.isDomain, n.isFixed) := by
        intro l
        induction l with
        | nil => intro i; rfl
        | cons n rest ih =>
            intro i
            rw [annotateNodes, List.map_cons, List.map_cons, ih (i + 1)]
      exact hgen mesh.nodes 0
    · dsimp only
      rw [List.map_map]
      exact List.map_congr_left fun e _ => rfl

/-- C10: `computeMeshStatus` is declared const in the header
(src/src/Boundary.h:146): calling it through the class interface leaves
every member of the Boundary instance — points, segments, nPoints,
nSegments, length — unchanged, although the Mesh argument is taken by
mutable reference and receives the annotation. -/
theorem C10_computeMeshStatus_const (b : Boundary) (mesh : Mesh) (φ : List ℚ) :
    (b.computeMeshStatusMember mesh φ).1.points = b.points ∧
    (b.computeMeshStatusMember mesh φ).1.segments = b.segments ∧
    (b.computeMeshStatusMember mesh φ).1.nPoints = b.nPoints ∧
    (b.computeMeshStatusMember mesh φ).1.nSegments = b.nSegments ∧
    (b.computeMeshStatusMember mesh φ).1.length = b.length :=
  ⟨rfl, rfl, rfl, rfl, rfl⟩

end slsm
